import Mathlib

/-!
Shallow embedding of the floorplan-analysis core of the `takeoff`
repository: the deterministic mock room detector (`src/lib/analysis.ts`)
and the mask-to-boundary extractor of the analyze route.

JavaScript numbers are modelled as rationals (`ℚ`); the arithmetic the
claims are about (seeded LCG draws, clamping, flooring, division by image
dimensions, rounding to two decimals) is exact on the values involved.
Strings are Lean `String`s; the labels involved are ASCII.
-/

/-- Embeds `ConstructionType` from `src/lib/analysis.ts`. -/
inductive ConstructionType : Type
  | residential
  | commercial
deriving DecidableEq

/-- Embeds `RoomTypeDefinition` from `src/lib/analysis.ts`. -/
structure RoomTypeDefinition : Type where
  label : String
  color : String
deriving DecidableEq

/-- Embeds `RoomBoundary` from `src/lib/analysis.ts`: normalized fractions of page size. -/
structure RoomBoundary : Type where
  x : ℚ
  y : ℚ
  width : ℚ
  height : ℚ
deriving DecidableEq, Inhabited

/-- Embeds `RoomDetection` from `src/lib/analysis.ts` (the optional `manual` flag is
never set by the two analysis functions and is omitted). -/
structure RoomDetection : Type where
  id : String
  label : String
  type : String
  confidence : ℚ
  boundary : RoomBoundary
  color : String
deriving DecidableEq, Inhabited

/-- Embeds `baseRoomTypes` from `src/lib/analysis.ts`. -/
def baseRoomTypes : List RoomTypeDefinition :=
  [ ⟨"Living Room", "#F97316"⟩
  , ⟨"Kitchen", "#0EA5E9"⟩
  , ⟨"Bedroom", "#A855F7"⟩
  , ⟨"Bathroom", "#10B981"⟩
  , ⟨"Circulation", "#F59E0B"⟩
  , ⟨"Storage", "#6B7280"⟩
  , ⟨"Mechanical", "#14B8A6"⟩
  , ⟨"Workspace", "#EF4444"⟩ ]

/-- Embeds `residentialBias` from `src/lib/analysis.ts` (a record, embedded as an
association list; lookup is by exact key). -/
def residentialBias : List (String × ℚ) :=
  [("Living Room", 11/10), ("Kitchen", 21/20), ("Bedroom", 6/5), ("Bathroom", 23/20)]

/-- Embeds `commercialBias` from `src/lib/analysis.ts`. -/
def commercialBias : List (String × ℚ) :=
  [("Workspace", 13/10), ("Mechanical", 11/10), ("Storage", 21/20), ("Circulation", 27/25)]

/-- Embeds `randomRoomNames` from `src/lib/analysis.ts`. -/
def randomRoomNames : List String :=
  ["Suite", "Studio", "Flex Space", "Utility", "Lobby", "Conference", "Breakroom", "Core"]

/-- The seeding step of `seededRandom`:
`value = seed % 2147483647; if (value <= 0) value += 2147483646`.
The seed supplied by `mockAnalyzeRooms` is the natural number `pageIndex + 1`,
so `value <= 0` can only mean `value = 0`. -/
def seededRandomInit (seed : ℕ) : ℕ :=
  let value := seed % 2147483647
  if value = 0 then value + 2147483646 else value

/-- One state update of the Park-Miller generator inside `seededRandom`:
`value = (value * 16807) % 2147483647`. -/
def lcgNext (value : ℕ) : ℕ :=
  (value * 16807) % 2147483647

/-- The value emitted for a given generator state: `(value - 1) / 2147483646`. -/
def lcgOut (value : ℕ) : ℚ :=
  ((value : ℚ) - 1) / 2147483646

/-- Embeds `getRoomColor` from `src/lib/analysis.ts`: the base palette is searched
first, then the custom types; `#94A3B8` is the fallback. -/
def getRoomColor (type : String) (customTypes : List RoomTypeDefinition) : String :=
  match (baseRoomTypes.find? fun d => d.label == type).orElse
      (fun _ => customTypes.find? fun d => d.label == type) with
  | some d => d.color
  | none => "#94A3B8"

/-- Embeds `Number(q.toFixed(2))`: round to two decimal digits. On the non-negative
values produced by the analysis code this rounds half up. -/
def toFixed2 (q : ℚ) : ℚ :=
  (⌊q * 100 + 1/2⌋ : ℚ) / 100

/-- Embeds `definitions[typeIndex] ?? definitions[0]` with a JavaScript index that may
be out of range; `definitions` is never empty (it contains the 8 base types). -/
def selectedDefinition (defs : List RoomTypeDefinition) (i : ℤ) : RoomTypeDefinition :=
  match (if 0 ≤ i then defs.get? i.toNat else none) with
  | some d => d
  | none => (defs.get? 0).getD ⟨"", ""⟩

/-- The body of the `map` inside `mockAnalyzeRooms` for room index `idx`,
with the generator state threaded explicitly (the TS closure mutates `value`;
each `rand()` call is one `lcgNext` step followed by `lcgOut`).
The draws happen in source order: type index, confidence base, width, height,
x, y. Returns the room together with the generator state after the six draws. -/
def mockRoom (pageIndex : ℕ) (classification : ConstructionType)
    (customTypes : List RoomTypeDefinition) (defs : List RoomTypeDefinition)
    (idx : ℕ) (v : ℕ) : RoomDetection × ℕ :=
  let v1 := lcgNext v
  let typeIndex : ℤ := ⌊lcgOut v1 * (defs.length : ℚ)⌋
  let selectedType := selectedDefinition defs typeIndex
  let biasMap := match classification with
    | .residential => residentialBias
    | .commercial => commercialBias
  let v2 := lcgNext v1
  let confidenceBase : ℚ := 65/100 + lcgOut v2 * (3/10)
  let bias := ((biasMap.find? fun kv => kv.1 == selectedType.label).map Prod.snd).getD 1
  let confidence := min (99/100) (confidenceBase * bias)
  let v3 := lcgNext v2
  let width := 1/4 + lcgOut v3 * (9/20)
  let v4 := lcgNext v3
  let height := 1/5 + lcgOut v4 * (2/5)
  let v5 := lcgNext v4
  let x := lcgOut v5 * (1 - width)
  let v6 := lcgNext v5
  let y := lcgOut v6 * (1 - height)
  ( { id := "room-" ++ toString pageIndex ++ "-" ++ toString idx
    , label := (randomRoomNames.get? (idx % randomRoomNames.length)).getD selectedType.label
    , type := selectedType.label
    , confidence := toFixed2 confidence
    , boundary := { x := x, y := y, width := width, height := height }
    , color := getRoomColor selectedType.label customTypes }
  , v6 )

/-- The `Array.from({length: roomCount}).map` loop of `mockAnalyzeRooms`:
`n` rooms remain, the next room has index `idx`, the generator state is `v`. -/
def mockRooms (pageIndex : ℕ) (classification : ConstructionType)
    (customTypes : List RoomTypeDefinition) (defs : List RoomTypeDefinition) :
    ℕ → ℕ → ℕ → List RoomDetection
  | 0, _, _ => []
  | n + 1, idx, v =>
    let r := mockRoom pageIndex classification customTypes defs idx v
    r.1 :: mockRooms pageIndex classification customTypes defs n (idx + 1) r.2

/-- Embeds `mockAnalyzeRooms` from `src/lib/analysis.ts`. The seed is
`pageIndex + 1`; the first draw fixes
`roomCount = Math.max(3, Math.floor(rand() * 6))`. -/
def mockAnalyzeRooms (pageIndex : ℕ) (classification : ConstructionType)
    (customTypes : List RoomTypeDefinition) : List RoomDetection :=
  let v0 := seededRandomInit (pageIndex + 1)
  let v1 := lcgNext v0
  let roomCount := (max 3 ⌊lcgOut v1 * 6⌋).toNat
  let defs := baseRoomTypes ++ customTypes
  mockRooms pageIndex classification customTypes defs roomCount 0 v1

/-- JavaScript `label.toLowerCase()` (ASCII case mapping), character by
character. -/
def lowerStr (s : String) : String :=
  ⟨s.toList.map Char.toLower⟩

/-- Does `hay` start with `needle`? (helper for substring containment). -/
def startsWithL : List Char → List Char → Bool
  | [], _ => true
  | _ :: _, [] => false
  | a :: as, b :: bs => a == b && startsWithL as bs

/-- Does `hay` contain `needle` as a contiguous substring?  Embeds
JavaScript `hay.includes(needle)`. -/
def containsL (needle : List Char) : List Char → Bool
  | [] => startsWithL needle []
  | c :: t => startsWithL needle (c :: t) || containsL needle t

/-- JavaScript `normalized.includes(sub)` on strings. -/
def strIncludes (s sub : String) : Bool :=
  containsL sub.toList s.toList

/-- A word character of the regex `\w`: `[A-Za-z0-9_]`. -/
def isWordChar (c : Char) : Bool :=
  ('a' ≤ c && c ≤ 'z') || ('A' ≤ c && c ≤ 'Z') || ('0' ≤ c && c ≤ '9') || c == '_'

/-- A whitespace character of the regex `\s` (ASCII part; the labels
involved only contain plain spaces). -/
def isSpaceChar (c : Char) : Bool :=
  c == ' ' || c == '\t' || c == '\n' || c == '\r' || c == '\x0b' || c == '\x0c'

/-- Embeds `label.replace(/(^|\s)\w/g, m => m.toUpperCase())`, character by
character: a word character is upper-cased exactly when it is at the start
of the string or directly preceded by a whitespace character (upper-casing
the whitespace half of a match is the identity). -/
def titleCaseGo (boundary : Bool) : List Char → List Char
  | [] => []
  | c :: t =>
    (if boundary && isWordChar c then c.toUpper else c) :: titleCaseGo (isSpaceChar c) t

/-- The fallback branch of `labelToRoomType`. -/
def titleCase (s : String) : String :=
  ⟨titleCaseGo true s.toList⟩

/-- The keyword test chain of `labelToRoomType` on the lower-cased label,
returning the matched room type or `none` when no rule fires. -/
def roomTypeRuleMatch (normalized : String) : Option String :=
  if strIncludes normalized "living" then some "Living Room"
  else if strIncludes normalized "kitchen" then some "Kitchen"
  else if strIncludes normalized "bed" then some "Bedroom"
  else if strIncludes normalized "bath" || strIncludes normalized "rest" then some "Bathroom"
  else if strIncludes normalized "storage" || strIncludes normalized "closet" then some "Storage"
  else if strIncludes normalized "mechanical" || strIncludes normalized "utility" then
    some "Mechanical"
  else if strIncludes normalized "office" || strIncludes normalized "workspace" then
    some "Workspace"
  else if strIncludes normalized "corridor" || strIncludes normalized "hall" then
    some "Circulation"
  else none

/-- Embeds `labelToRoomType` from the analyze route: case-insensitive keyword
matching in source order, falling back to title-casing the original label. -/
def labelToRoomType (label : String) : String :=
  match roomTypeRuleMatch (lowerStr label) with
  | some t => t
  | none => titleCase label

/-- The decoded PNG as seen by `maskToBoundary`: `PNG.sync.read` yields a
width, a height and a flat byte array with 4 bytes per pixel, the alpha
channel at offset 3.  Out-of-range reads (`data[i]` on a short buffer)
yield `undefined`, which fails the `> 0` test, hence the default 0. -/
structure MaskImage : Type where
  width : ℕ
  height : ℕ
  data : List ℕ
deriving DecidableEq

/-- Embeds `data[(y * width + x) * 4 + 3]` of the decoded mask. -/
def alphaAt (img : MaskImage) (x y : ℕ) : ℕ :=
  img.data.getD ((y * img.width + x) * 4 + 3) 0

/-- The mutable scan state of `maskToBoundary`. -/
structure ScanState : Type where
  minX : ℤ
  minY : ℤ
  maxX : ℤ
  maxY : ℤ
deriving DecidableEq

/-- One iteration of the pixel scan: on a pixel with positive alpha each of
the four trackers is updated (`if (x < minX) minX = x` is `min`, and
likewise for the others); otherwise the state is unchanged. -/
def scanStep (img : MaskImage) (s : ScanState) (p : ℕ × ℕ) : ScanState :=
  if 0 < alphaAt img p.1 p.2 then
    { minX := min s.minX (p.1 : ℤ)
    , minY := min s.minY (p.2 : ℤ)
    , maxX := max s.maxX (p.1 : ℤ)
    , maxY := max s.maxY (p.2 : ℤ) }
  else s

/-- The pixels in scan order: `y` outer loop, `x` inner loop. -/
def pixelList (img : MaskImage) : List (ℕ × ℕ) :=
  (List.range img.height).flatMap fun y => (List.range img.width).map fun x => (x, y)

/-- The whole pixel scan of `maskToBoundary`, started from
`minX = width, minY = height, maxX = -1, maxY = -1`. -/
def scanMask (img : MaskImage) : ScanState :=
  (pixelList img).foldl (scanStep img) ⟨(img.width : ℤ), (img.height : ℤ), -1, -1⟩

/-- Embeds `maskToBoundary` from the analyze route.  The `PNG.sync.read` call on
the raw buffer is an external-library boundary (the spec directs to model
decoding abstractly); its outcome is the `decoded` argument: `none` for a
buffer that throws on decode (the `catch` branch returns `null`), `some img`
for a successful decode. -/
def maskToBoundary (decoded : Option MaskImage) (label : String) (score : ℚ)
    (pageIndex idx : ℕ) (customTypes : List RoomTypeDefinition) : Option RoomDetection :=
  match decoded with
  | none => none
  | some png =>
    let s := scanMask png
    if s.maxX = -1 ∨ s.maxY = -1 then none
    else
      let roomType := labelToRoomType label
      some
        { id := "hf-room-" ++ toString pageIndex ++ "-" ++ toString idx
        , label := roomType
        , type := roomType
        , confidence := toFixed2 (min (max score (1/10)) (99/100))
        , boundary :=
          { x := (s.minX : ℚ) / (png.width : ℚ)
          , y := (s.minY : ℚ) / (png.height : ℚ)
          , width := max (((s.maxX - s.minX : ℤ) : ℚ) / (png.width : ℚ)) (1/20)
          , height := max (((s.maxY - s.minY : ℤ) : ℚ) / (png.height : ℚ)) (1/20) }
        , color := getRoomColor roomType customTypes }

/-- One segment returned by the segmentation service, as consumed by the
loop in `analyzePageWithHf`: `mask` is the decode outcome of the segment's
mask buffer (`none` covers a missing mask, an empty buffer, and a decode
failure), `label` and `score` are the already-defaulted fields. -/
structure Segment : Type where
  mask : Option MaskImage
  label : String
  score : ℚ

/-- The `for` loop of `analyzePageWithHf`: each segment is converted with
`maskToBoundary`; a `null` result is skipped and the loop index advances
regardless. -/
def processSegments (pageIndex : ℕ) (customTypes : List RoomTypeDefinition) :
    ℕ → List Segment → List RoomDetection
  | _, [] => []
  | idx, seg :: rest =>
    match maskToBoundary seg.mask seg.label seg.score pageIndex idx customTypes with
    | some d => d :: processSegments pageIndex customTypes (idx + 1) rest
    | none => processSegments pageIndex customTypes (idx + 1) rest

/-- A pixel of the decoded mask that the scan treats as opaque: inside the
image and with positive alpha. -/
def OpaqueAt (img : MaskImage) (x y : ℕ) : Prop :=
  x < img.width ∧ y < img.height ∧ 0 < alphaAt img x y

/-- The x coordinates of opaque pixels (spec side: the set whose least and
greatest elements the tightest bounding box is made of). -/
def opaqueXs (img : MaskImage) : Set ℕ :=
  {x | ∃ y, OpaqueAt img x y}

/-- The y coordinates of opaque pixels. -/
def opaqueYs (img : MaskImage) : Set ℕ :=
  {y | ∃ x, OpaqueAt img x y}

/-! ### Range of the Park-Miller generator -/

theorem prime_2147483647 : Nat.Prime 2147483647 := by
  have h : (mersenne 31).Prime := lucas_lehmer_sufficiency 31 (by norm_num) (by norm_num)
  have e : mersenne 31 = 2147483647 := by norm_num [mersenne]
  rwa [e] at h

theorem lcgNext_le (v : ℕ) : lcgNext v ≤ 2147483646 := by
  have h := Nat.mod_lt (v * 16807) (show 0 < 2147483647 by norm_num)
  unfold lcgNext
  omega

theorem lcgNext_range (v : ℕ) (h1 : 1 ≤ v) (h2 : v ≤ 2147483646) :
    1 ≤ lcgNext v ∧ lcgNext v ≤ 2147483646 := by
  refine ⟨?_, lcgNext_le v⟩
  rcases Nat.eq_zero_or_pos (lcgNext v) with h0 | hp
  · exfalso
    have hd : 2147483647 ∣ v * 16807 := Nat.dvd_of_mod_eq_zero h0
    rcases (Nat.Prime.dvd_mul prime_2147483647).mp hd with h | h
    · have := Nat.le_of_dvd (by omega) h
      omega
    · have := Nat.le_of_dvd (by norm_num) h
      omega
  · omega

theorem seededRandomInit_range (seed : ℕ) :
    1 ≤ seededRandomInit seed ∧ seededRandomInit seed ≤ 2147483646 := by
  have h := Nat.mod_lt seed (show 0 < 2147483647 by norm_num)
  unfold seededRandomInit
  dsimp only
  split <;> omega

theorem lcgOut_nonneg (v : ℕ) (h1 : 1 ≤ v) : 0 ≤ lcgOut v := by
  unfold lcgOut
  apply div_nonneg _ (by norm_num)
  have : (1 : ℚ) ≤ (v : ℚ) := by exact_mod_cast h1
  linarith

theorem lcgOut_lt_one (v : ℕ) (h2 : v ≤ 2147483646) : lcgOut v < 1 := by
  unfold lcgOut
  rw [div_lt_one (by norm_num)]
  have : (v : ℚ) ≤ 2147483646 := by exact_mod_cast h2
  linarith

/-! ### Shape of the mock generator output -/

theorem mockRooms_length (p : ℕ) (c : ConstructionType) (ct defs : List RoomTypeDefinition) :
    ∀ (n idx v : ℕ), (mockRooms p c ct defs n idx v).length = n := by
  intro n
  induction n with
  | zero => intro idx v; rfl
  | succ n ih => intro idx v; simp [mockRooms, ih]

theorem mockRoom_state (p : ℕ) (c : ConstructionType) (ct defs : List RoomTypeDefinition)
    (idx v : ℕ) :
    (mockRoom p c ct defs idx v).2 =
      lcgNext (lcgNext (lcgNext (lcgNext (lcgNext (lcgNext v))))) := rfl

theorem mockRoom_boundary (p : ℕ) (c : ConstructionType) (ct defs : List RoomTypeDefinition)
    (idx v : ℕ) :
    (mockRoom p c ct defs idx v).1.boundary =
      { x := lcgOut (lcgNext (lcgNext (lcgNext (lcgNext (lcgNext v))))) *
              (1 - (1/4 + lcgOut (lcgNext (lcgNext (lcgNext v))) * (9/20)))
      , y := lcgOut (lcgNext (lcgNext (lcgNext (lcgNext (lcgNext (lcgNext v)))))) *
              (1 - (1/5 + lcgOut (lcgNext (lcgNext (lcgNext (lcgNext v)))) * (2/5)))
      , width := 1/4 + lcgOut (lcgNext (lcgNext (lcgNext v))) * (9/20)
      , height := 1/5 + lcgOut (lcgNext (lcgNext (lcgNext (lcgNext v)))) * (2/5) } := rfl

theorem mockRoom_bounds (p : ℕ) (c : ConstructionType) (ct defs : List RoomTypeDefinition)
    (idx v : ℕ) (h1 : 1 ≤ v) (h2 : v ≤ 2147483646) :
    0 ≤ (mockRoom p c ct defs idx v).1.boundary.x ∧
    0 ≤ (mockRoom p c ct defs idx v).1.boundary.y ∧
    (mockRoom p c ct defs idx v).1.boundary.x + (mockRoom p c ct defs idx v).1.boundary.width ≤ 1 ∧
    (mockRoom p c ct defs idx v).1.boundary.y + (mockRoom p c ct defs idx v).1.boundary.height ≤ 1 ∧
    1/4 ≤ (mockRoom p c ct defs idx v).1.boundary.width ∧
    (mockRoom p c ct defs idx v).1.boundary.width < 7/10 ∧
    1/5 ≤ (mockRoom p c ct defs idx v).1.boundary.height ∧
    (mockRoom p c ct defs idx v).1.boundary.height < 3/5 := by
  obtain ⟨a1, b1⟩ := lcgNext_range v h1 h2
  obtain ⟨a2, b2⟩ := lcgNext_range _ a1 b1
  obtain ⟨a3, b3⟩ := lcgNext_range _ a2 b2
  obtain ⟨a4, b4⟩ := lcgNext_range _ a3 b3
  obtain ⟨a5, b5⟩ := lcgNext_range _ a4 b4
  obtain ⟨a6, b6⟩ := lcgNext_range _ a5 b5
  rw [mockRoom_boundary]
  set r3 := lcgOut (lcgNext (lcgNext (lcgNext v))) with hr3
  set r4 := lcgOut (lcgNext (lcgNext (lcgNext (lcgNext v)))) with hr4
  set r5 := lcgOut (lcgNext (lcgNext (lcgNext (lcgNext (lcgNext v))))) with hr5
  set r6 := lcgOut (lcgNext (lcgNext (lcgNext (lcgNext (lcgNext (lcgNext v)))))) with hr6
  have n3 : 0 ≤ r3 := lcgOut_nonneg _ a3
  have l3 : r3 < 1 := lcgOut_lt_one _ b3
  have n4 : 0 ≤ r4 := lcgOut_nonneg _ a4
  have l4 : r4 < 1 := lcgOut_lt_one _ b4
  have n5 : 0 ≤ r5 := lcgOut_nonneg _ a5
  have l5 : r5 < 1 := lcgOut_lt_one _ b5
  have n6 : 0 ≤ r6 := lcgOut_nonneg _ a6
  have l6 : r6 < 1 := lcgOut_lt_one _ b6
  have w1 : (0 : ℚ) ≤ r3 * (9/20) := mul_nonneg n3 (by norm_num)
  have w2 : r3 * (9/20) < 9/20 := by nlinarith
  have h1' : (0 : ℚ) ≤ r4 * (2/5) := mul_nonneg n4 (by norm_num)
  have h2' : r4 * (2/5) < 2/5 := by nlinarith
  refine ⟨?_, ?_, ?_, ?_, by dsimp only; linarith, by dsimp only; linarith,
    by dsimp only; linarith, by dsimp only; linarith⟩
  · dsimp only
    exact mul_nonneg n5 (by linarith)
  · dsimp only
    exact mul_nonneg n6 (by linarith)
  · dsimp only
    nlinarith
  · dsimp only
    nlinarith

theorem mockRooms_bounds (p : ℕ) (c : ConstructionType) (ct defs : List RoomTypeDefinition) :
    ∀ (n idx v : ℕ), 1 ≤ v → v ≤ 2147483646 →
    ∀ r ∈ mockRooms p c ct defs n idx v,
    0 ≤ r.boundary.x ∧ 0 ≤ r.boundary.y ∧
    r.boundary.x + r.boundary.width ≤ 1 ∧ r.boundary.y + r.boundary.height ≤ 1 ∧
    1/4 ≤ r.boundary.width ∧ r.boundary.width < 7/10 ∧
    1/5 ≤ r.boundary.height ∧ r.boundary.height < 3/5 := by
  intro n
  induction n with
  | zero => intro idx v _ _ r hr; simp [mockRooms] at hr
  | succ n ih =>
    intro idx v h1 h2 r hr
    rw [mockRooms] at hr
    rcases List.mem_cons.mp hr with h | h
    · subst h
      exact mockRoom_bounds p c ct defs idx v h1 h2
    · obtain ⟨a1, b1⟩ := lcgNext_range v h1 h2
      obtain ⟨a2, b2⟩ := lcgNext_range _ a1 b1
      obtain ⟨a3, b3⟩ := lcgNext_range _ a2 b2
      obtain ⟨a4, b4⟩ := lcgNext_range _ a3 b3
      obtain ⟨a5, b5⟩ := lcgNext_range _ a4 b4
      obtain ⟨a6, b6⟩ := lcgNext_range _ a5 b5
      exact ih (idx + 1) _ a6 b6 r (by rw [mockRoom_state] at h; exact h)

/-- C1: `mockAnalyzeRooms` is deterministic: two calls with the same
`pageIndex`, `classification` and `customTypes` return identical lists of
`RoomDetection` records (same ids, labels, types, confidences, boundaries
and colors, in the same order).  The generator state is purely local
(threaded explicitly in the embedding), so the function has no side
effects. -/
theorem mockAnalyzeRooms_deterministic (p : ℕ) (c : ConstructionType)
    (ct : List RoomTypeDefinition) :
    mockAnalyzeRooms p c ct = mockAnalyzeRooms p c ct ∧
    List.Forall₂
      (fun a b => a.id = b.id ∧ a.label = b.label ∧ a.type = b.type ∧
        a.confidence = b.confidence ∧ a.boundary = b.boundary ∧ a.color = b.color)
      (mockAnalyzeRooms p c ct) (mockAnalyzeRooms p c ct) :=
  ⟨rfl, List.forall₂_same.mpr fun _ _ => ⟨rfl, rfl, rfl, rfl, rfl, rfl⟩⟩

/-- C5: for every `pageIndex`, `classification` and `customTypes`, the number
of rooms returned by `mockAnalyzeRooms` is in `[3, 8]` (indeed in `[3, 5]`,
since the drawn count is `max 3 ⌊rand * 6⌋` with `rand < 1`). -/
theorem mockAnalyzeRooms_count (p : ℕ) (c : ConstructionType)
    (ct : List RoomTypeDefinition) :
    3 ≤ (mockAnalyzeRooms p c ct).length ∧ (mockAnalyzeRooms p c ct).length ≤ 8 := by
  unfold mockAnalyzeRooms
  dsimp only
  rw [mockRooms_length]
  have hle : lcgNext (seededRandomInit (p + 1)) ≤ 2147483646 := lcgNext_le _
  have hout : lcgOut (lcgNext (seededRandomInit (p + 1))) < 1 := lcgOut_lt_one _ hle
  have h6 : lcgOut (lcgNext (seededRandomInit (p + 1))) * 6 < 6 := by linarith
  have hfl : ⌊lcgOut (lcgNext (seededRandomInit (p + 1))) * 6⌋ < 6 :=
    Int.floor_lt.mpr (by exact_mod_cast h6)
  omega

/-- C4: every boundary returned by `mockAnalyzeRooms` satisfies `0 ≤ x`,
`0 ≤ y`, `x + width ≤ 1`, `y + height ≤ 1`, with `width ∈ [0.25, 0.70)` and
`height ∈ [0.20, 0.60)`. -/
theorem mockAnalyzeRooms_boundary_bounds (p : ℕ) (c : ConstructionType)
    (ct : List RoomTypeDefinition) (r : RoomDetection) (hr : r ∈ mockAnalyzeRooms p c ct) :
    0 ≤ r.boundary.x ∧ 0 ≤ r.boundary.y ∧
    r.boundary.x + r.boundary.width ≤ 1 ∧ r.boundary.y + r.boundary.height ≤ 1 ∧
    1/4 ≤ r.boundary.width ∧ r.boundary.width < 7/10 ∧
    1/5 ≤ r.boundary.height ∧ r.boundary.height < 3/5 := by
  unfold mockAnalyzeRooms at hr
  obtain ⟨i1, i2⟩ := seededRandomInit_range (p + 1)
  obtain ⟨a1, b1⟩ := lcgNext_range _ i1 i2
  exact mockRooms_bounds p c ct _ _ 0 _ a1 b1 r hr

/-- Witness for C4 at `pageIndex = 0`, residential, no custom types: the
first returned room's boundary satisfies all the bounds. -/
theorem mockAnalyzeRooms_boundary_bounds_witness :
    0 ≤ (mockAnalyzeRooms 0 .residential []).head!.boundary.x ∧
    0 ≤ (mockAnalyzeRooms 0 .residential []).head!.boundary.y ∧
    (mockAnalyzeRooms 0 .residential []).head!.boundary.x +
      (mockAnalyzeRooms 0 .residential []).head!.boundary.width ≤ 1 ∧
    (mockAnalyzeRooms 0 .residential []).head!.boundary.y +
      (mockAnalyzeRooms 0 .residential []).head!.boundary.height ≤ 1 ∧
    1/4 ≤ (mockAnalyzeRooms 0 .residential []).head!.boundary.width ∧
    (mockAnalyzeRooms 0 .residential []).head!.boundary.width < 7/10 ∧
    1/5 ≤ (mockAnalyzeRooms 0 .residential []).head!.boundary.height ∧
    (mockAnalyzeRooms 0 .residential []).head!.boundary.height < 3/5 :=
  mockAnalyzeRooms_boundary_bounds 0 .residential []
    (mockAnalyzeRooms 0 .residential []).head!
    (List.head!_mem_self (by
      apply List.ne_nil_of_length_pos
      unfold mockAnalyzeRooms
      dsimp only
      rw [mockRooms_length]
      omega))

/-! ### Characterizing the pixel scan -/

theorem foldl_min_le_init : ∀ (l : List ℤ) (a : ℤ), l.foldl min a ≤ a := by
  intro l
  induction l with
  | nil => intro a; exact le_refl a
  | cons b t ih =>
    intro a
    calc (b :: t).foldl min a = t.foldl min (min a b) := rfl
    _ ≤ min a b := ih _
    _ ≤ a := min_le_left _ _

theorem foldl_min_le_mem : ∀ (l : List ℤ) (a x : ℤ), x ∈ l → l.foldl min a ≤ x := by
  intro l
  induction l with
  | nil => intro a x hx; cases hx
  | cons b t ih =>
    intro a x hx
    rcases List.mem_cons.mp hx with h | h
    · subst h
      calc (x :: t).foldl min a = t.foldl min (min a x) := rfl
      _ ≤ min a x := foldl_min_le_init _ _
      _ ≤ x := min_le_right _ _
    · exact ih _ x h

theorem le_foldl_min : ∀ (l : List ℤ) (a c : ℤ), c ≤ a → (∀ x ∈ l, c ≤ x) →
    c ≤ l.foldl min a := by
  intro l
  induction l with
  | nil => intro a c h _; exact h
  | cons b t ih =>
    intro a c h hall
    exact ih _ c (le_min h (hall b (List.mem_cons_self b t))) fun x hx =>
      hall x (List.mem_cons_of_mem b hx)

theorem init_le_foldl_max : ∀ (l : List ℤ) (a : ℤ), a ≤ l.foldl max a := by
  intro l
  induction l with
  | nil => intro a; exact le_refl a
  | cons b t ih =>
    intro a
    calc a ≤ max a b := le_max_left _ _
    _ ≤ t.foldl max (max a b) := ih _
    _ = (b :: t).foldl max a := rfl

theorem mem_le_foldl_max : ∀ (l : List ℤ) (a x : ℤ), x ∈ l → x ≤ l.foldl max a := by
  intro l
  induction l with
  | nil => intro a x hx; cases hx
  | cons b t ih =>
    intro a x hx
    rcases List.mem_cons.mp hx with h | h
    · subst h
      calc x ≤ max a x := le_max_right _ _
      _ ≤ t.foldl max (max a x) := init_le_foldl_max _ _
      _ = (x :: t).foldl max a := rfl
    · exact ih _ x h

theorem foldl_max_le : ∀ (l : List ℤ) (a c : ℤ), a ≤ c → (∀ x ∈ l, x ≤ c) →
    l.foldl max a ≤ c := by
  intro l
  induction l with
  | nil => intro a c h _; exact h
  | cons b t ih =>
    intro a c h hall
    exact ih _ c (max_le h (hall b (List.mem_cons_self b t))) fun x hx =>
      hall x (List.mem_cons_of_mem b hx)

theorem foldl_scanStep (img : MaskImage) :
    ∀ (l : List (ℕ × ℕ)) (s : ScanState),
    l.foldl (scanStep img) s =
      { minX := ((l.filter fun q => decide (0 < alphaAt img q.1 q.2)).map
          fun q => (q.1 : ℤ)).foldl min s.minX
      , minY := ((l.filter fun q => decide (0 < alphaAt img q.1 q.2)).map
          fun q => (q.2 : ℤ)).foldl min s.minY
      , maxX := ((l.filter fun q => decide (0 < alphaAt img q.1 q.2)).map
          fun q => (q.1 : ℤ)).foldl max s.maxX
      , maxY := ((l.filter fun q => decide (0 < alphaAt img q.1 q.2)).map
          fun q => (q.2 : ℤ)).foldl max s.maxY } := by
  intro l
  induction l with
  | nil => intro s; rfl
  | cons a t ih =>
    intro s
    rw [List.foldl_cons, ih]
    by_cases h : 0 < alphaAt img a.1 a.2
    · simp [scanStep, h, List.filter_cons]
    · simp [scanStep, h, List.filter_cons]

theorem mem_pixelList (img : MaskImage) (q : ℕ × ℕ) :
    q ∈ pixelList img ↔ q.1 < img.width ∧ q.2 < img.height := by
  obtain ⟨a, b⟩ := q
  unfold pixelList
  rw [List.mem_flatMap]
  constructor
  · rintro ⟨y, hy, hmem⟩
    rw [List.mem_map] at hmem
    obtain ⟨x, hx, he⟩ := hmem
    obtain ⟨rfl, rfl⟩ := Prod.mk.injEq .. ▸ he
    exact ⟨List.mem_range.mp hx, List.mem_range.mp hy⟩
  · rintro ⟨ha, hb⟩
    exact ⟨b, List.mem_range.mpr hb, List.mem_map.mpr ⟨a, List.mem_range.mpr ha, rfl⟩⟩

theorem scanMask_eq (img : MaskImage) (mnX mxX mnY mxY : ℕ)
    (hx : IsLeast (opaqueXs img) mnX) (hX : IsGreatest (opaqueXs img) mxX)
    (hy : IsLeast (opaqueYs img) mnY) (hY : IsGreatest (opaqueYs img) mxY) :
    scanMask img = ⟨(mnX : ℤ), (mnY : ℤ), (mxX : ℤ), (mxY : ℤ)⟩ := by
  unfold scanMask
  rw [foldl_scanStep]
  have memX : ∀ z : ℤ,
      z ∈ ((pixelList img).filter fun q => decide (0 < alphaAt img q.1 q.2)).map
        (fun q => (q.1 : ℤ)) ↔ ∃ x y : ℕ, z = (x : ℤ) ∧ OpaqueAt img x y := by
    intro z
    rw [List.mem_map]
    constructor
    · rintro ⟨q, hq, rfl⟩
      rw [List.mem_filter] at hq
      obtain ⟨hmem, hdec⟩ := hq
      rw [mem_pixelList] at hmem
      exact ⟨q.1, q.2, rfl, hmem.1, hmem.2, of_decide_eq_true hdec⟩
    · rintro ⟨x, y, rfl, hop⟩
      refine ⟨(x, y), ?_, rfl⟩
      rw [List.mem_filter, mem_pixelList]
      exact ⟨⟨hop.1, hop.2.1⟩, decide_eq_true hop.2.2⟩
  have memY : ∀ z : ℤ,
      z ∈ ((pixelList img).filter fun q => decide (0 < alphaAt img q.1 q.2)).map
        (fun q => (q.2 : ℤ)) ↔ ∃ y x : ℕ, z = (y : ℤ) ∧ OpaqueAt img x y := by
    intro z
    rw [List.mem_map]
    constructor
    · rintro ⟨q, hq, rfl⟩
      rw [List.mem_filter] at hq
      obtain ⟨hmem, hdec⟩ := hq
      rw [mem_pixelList] at hmem
      exact ⟨q.2, q.1, rfl, hmem.1, hmem.2, of_decide_eq_true hdec⟩
    · rintro ⟨y, x, rfl, hop⟩
      refine ⟨(x, y), ?_, rfl⟩
      rw [List.mem_filter, mem_pixelList]
      exact ⟨⟨hop.1, hop.2.1⟩, decide_eq_true hop.2.2⟩
  obtain ⟨⟨ymn, hmnop⟩, hmnlb⟩ := hx
  obtain ⟨⟨ymx, hmxop⟩, hmxub⟩ := hX
  obtain ⟨⟨xmn, hmnopy⟩, hmnlby⟩ := hy
  obtain ⟨⟨xmx, hmxopy⟩, hmxuby⟩ := hY
  have e1 : (((pixelList img).filter fun q => decide (0 < alphaAt img q.1 q.2)).map
      (fun q => (q.1 : ℤ))).foldl min (img.width : ℤ) = (mnX : ℤ) := by
    apply le_antisymm
    · exact foldl_min_le_mem _ _ _ ((memX _).mpr ⟨mnX, ymn, rfl, hmnop⟩)
    · apply le_foldl_min
      · exact_mod_cast Nat.le_of_lt hmnop.1
      · intro z hz
        obtain ⟨x, y, rfl, hop⟩ := (memX z).mp hz
        exact_mod_cast hmnlb ⟨y, hop⟩
  have e2 : (((pixelList img).filter fun q => decide (0 < alphaAt img q.1 q.2)).map
      (fun q => (q.2 : ℤ))).foldl min (img.height : ℤ) = (mnY : ℤ) := by
    apply le_antisymm
    · exact foldl_min_le_mem _ _ _ ((memY _).mpr ⟨mnY, xmn, rfl, hmnopy⟩)
    · apply le_foldl_min
      · exact_mod_cast Nat.le_of_lt hmnopy.2.1
      · intro z hz
        obtain ⟨y, x, rfl, hop⟩ := (memY z).mp hz
        exact_mod_cast hmnlby ⟨x, hop⟩
  have e3 : (((pixelList img).filter fun q => decide (0 < alphaAt img q.1 q.2)).map
      (fun q => (q.1 : ℤ))).foldl max (-1 : ℤ) = (mxX : ℤ) := by
    apply le_antisymm
    · apply foldl_max_le
      · omega
      · intro z hz
        obtain ⟨x, y, rfl, hop⟩ := (memX z).mp hz
        exact_mod_cast hmxub ⟨y, hop⟩
    · exact mem_le_foldl_max _ _ _ ((memX _).mpr ⟨mxX, ymx, rfl, hmxop⟩)
  have e4 : (((pixelList img).filter fun q => decide (0 < alphaAt img q.1 q.2)).map
      (fun q => (q.2 : ℤ))).foldl max (-1 : ℤ) = (mxY : ℤ) := by
    apply le_antisymm
    · apply foldl_max_le
      · omega
      · intro z hz
        obtain ⟨y, x, rfl, hop⟩ := (memY z).mp hz
        exact_mod_cast hmxuby ⟨x, hop⟩
    · exact mem_le_foldl_max _ _ _ ((memY _).mpr ⟨mxY, xmx, rfl, hmxopy⟩)
  rw [ScanState.mk.injEq]
  exact ⟨e1, e2, e3, e4⟩

theorem maskToBoundary_of_bounds (img : MaskImage) (label : String) (score : ℚ)
    (p i : ℕ) (ct : List RoomTypeDefinition) (mnX mxX mnY mxY : ℕ)
    (hx : IsLeast (opaqueXs img) mnX) (hX : IsGreatest (opaqueXs img) mxX)
    (hy : IsLeast (opaqueYs img) mnY) (hY : IsGreatest (opaqueYs img) mxY) :
    maskToBoundary (some img) label score p i ct = some
      { id := "hf-room-" ++ toString p ++ "-" ++ toString i
      , label := labelToRoomType label
      , type := labelToRoomType label
      , confidence := toFixed2 (min (max score (1/10)) (99/100))
      , boundary :=
        { x := (mnX : ℚ) / (img.width : ℚ)
        , y := (mnY : ℚ) / (img.height : ℚ)
        , width := max (((mxX : ℚ) - (mnX : ℚ)) / (img.width : ℚ)) (1/20)
        , height := max (((mxY : ℚ) - (mnY : ℚ)) / (img.height : ℚ)) (1/20) }
      , color := getRoomColor (labelToRoomType label) ct } := by
  unfold maskToBoundary
  dsimp only
  rw [scanMask_eq img mnX mxX mnY mxY hx hX hy hY]
  rw [if_neg (by dsimp only; omega)]
  dsimp only
  rw [Option.some.injEq, RoomDetection.mk.injEq, RoomBoundary.mk.injEq]
  refine ⟨rfl, rfl, rfl, rfl, ⟨rfl, rfl, ?_, ?_⟩, rfl⟩
  · push_cast
    rfl
  · push_cast
    rfl

theorem scanMask_of_transparent (img : MaskImage) (h : ∀ x y, ¬ OpaqueAt img x y) :
    scanMask img = ⟨(img.width : ℤ), (img.height : ℤ), -1, -1⟩ := by
  unfold scanMask
  rw [foldl_scanStep]
  have hfil : (pixelList img).filter (fun q => decide (0 < alphaAt img q.1 q.2)) = [] := by
    rw [List.filter_eq_nil_iff]
    intro q hq
    rw [mem_pixelList] at hq
    intro hdec
    exact h q.1 q.2 ⟨hq.1, hq.2, of_decide_eq_true hdec⟩
  rw [hfil]
  rfl

/-- C2: for every decodable mask with at least one pixel of positive alpha,
`maskToBoundary` returns the tightest axis-aligned bounding box of the
opaque pixels, normalized by the image dimensions: `x = minX / width`,
`y = minY / height`, and the normalized width and height span
`maxX - minX` resp. `maxY - minY` (the full coordinate extent of those
pixels), subject to a `0.05` floor on width and height.  The minimal and
maximal coordinates are given as least/greatest elements of the coordinate
sets of opaque pixels (which are nonempty exactly when such a pixel
exists). -/
theorem maskToBoundary_tightest (img : MaskImage) (label : String) (score : ℚ)
    (p i : ℕ) (ct : List RoomTypeDefinition) (mnX mxX mnY mxY : ℕ)
    (hx : IsLeast (opaqueXs img) mnX) (hX : IsGreatest (opaqueXs img) mxX)
    (hy : IsLeast (opaqueYs img) mnY) (hY : IsGreatest (opaqueYs img) mxY) :
    ∃ d, maskToBoundary (some img) label score p i ct = some d ∧
      d.boundary.x = (mnX : ℚ) / (img.width : ℚ) ∧
      d.boundary.y = (mnY : ℚ) / (img.height : ℚ) ∧
      d.boundary.width = max (((mxX : ℚ) - (mnX : ℚ)) / (img.width : ℚ)) (1/20) ∧
      d.boundary.height = max (((mxY : ℚ) - (mnY : ℚ)) / (img.height : ℚ)) (1/20) :=
  ⟨_, maskToBoundary_of_bounds img label score p i ct mnX mxX mnY mxY hx hX hy hY,
    rfl, rfl, rfl, rfl⟩

/-- Witness for C2: a 2×2 mask opaque at (0,0) and (1,1); the extractor
returns `x = 0/2`, `y = 0/2`, `width = max ((1-0)/2) 0.05`,
`height = max ((1-0)/2) 0.05`. -/
theorem maskToBoundary_tightest_witness :
    ∃ d, maskToBoundary
        (some ⟨2, 2, [0, 0, 0, 255, 0, 0, 0, 0, 0, 0, 0, 0, 0, 0, 0, 255]⟩)
        "Kitchen" (1/2) 0 0 [] = some d ∧
      d.boundary.x = ((0 : ℕ) : ℚ) / ((2 : ℕ) : ℚ) ∧
      d.boundary.y = ((0 : ℕ) : ℚ) / ((2 : ℕ) : ℚ) ∧
      d.boundary.width = max ((((1 : ℕ) : ℚ) - ((0 : ℕ) : ℚ)) / ((2 : ℕ) : ℚ)) (1/20) ∧
      d.boundary.height = max ((((1 : ℕ) : ℚ) - ((0 : ℕ) : ℚ)) / ((2 : ℕ) : ℚ)) (1/20) := by
  apply maskToBoundary_tightest
      ⟨2, 2, [0, 0, 0, 255, 0, 0, 0, 0, 0, 0, 0, 0, 0, 0, 0, 255]⟩ "Kitchen" (1/2) 0 0 [] 0 1 0 1
  · exact ⟨⟨0, by unfold OpaqueAt; decide⟩, fun x _ => Nat.zero_le x⟩
  · refine ⟨⟨1, by unfold OpaqueAt; decide⟩, ?_⟩
    rintro x ⟨y, hx, _, _⟩
    dsimp only at hx
    omega
  · exact ⟨⟨0, by unfold OpaqueAt; decide⟩, fun y _ => Nat.zero_le y⟩
  · refine ⟨⟨1, by unfold OpaqueAt; decide⟩, ?_⟩
    rintro y ⟨x, _, hy, _⟩
    dsimp only at hy
    omega

/-- Helper: the boundary produced for a mask whose only opaque pixel is at
`(px, py)`. -/
theorem single_opaque_pixel_boundary (img : MaskImage) (px py : ℕ) (label : String)
    (score : ℚ) (p i : ℕ) (ct : List RoomTypeDefinition)
    (h : ∀ x y, OpaqueAt img x y ↔ x = px ∧ y = py) :
    ∃ d, maskToBoundary (some img) label score p i ct = some d ∧
      d.boundary.x = (px : ℚ) / (img.width : ℚ) ∧
      d.boundary.y = (py : ℚ) / (img.height : ℚ) ∧
      1/20 ≤ d.boundary.width ∧ 1/20 ≤ d.boundary.height := by
  have hop : OpaqueAt img px py := (h px py).mpr ⟨rfl, rfl⟩
  have hx : IsLeast (opaqueXs img) px := by
    refine ⟨⟨py, hop⟩, ?_⟩
    rintro x ⟨y, hxy⟩
    rw [h] at hxy
    omega
  have hX : IsGreatest (opaqueXs img) px := by
    refine ⟨⟨py, hop⟩, ?_⟩
    rintro x ⟨y, hxy⟩
    rw [h] at hxy
    omega
  have hy : IsLeast (opaqueYs img) py := by
    refine ⟨⟨px, hop⟩, ?_⟩
    rintro y ⟨x, hxy⟩
    rw [h] at hxy
    omega
  have hY : IsGreatest (opaqueYs img) py := by
    refine ⟨⟨px, hop⟩, ?_⟩
    rintro y ⟨x, hxy⟩
    rw [h] at hxy
    omega
  refine ⟨_, maskToBoundary_of_bounds img label score p i ct px px py py hx hX hy hY,
    rfl, rfl, ?_, ?_⟩
  · dsimp only
    rw [sub_self, zero_div]
    exact le_max_right _ _
  · dsimp only
    rw [sub_self, zero_div]
    exact le_max_right _ _

/-- C3: a mask whose only opaque pixel is at `(px, py)` in a `W×H` image
yields a boundary with `x = px / W`, `y = py / H`, and width and height at
least `0.05` (the floor applies to width and height only, not to `x`/`y`). -/
theorem maskToBoundary_single_pixel (img : MaskImage) (px py : ℕ) (label : String)
    (score : ℚ) (p i : ℕ) (ct : List RoomTypeDefinition)
    (h : ∀ x y, OpaqueAt img x y ↔ x = px ∧ y = py) :
    ∃ d, maskToBoundary (some img) label score p i ct = some d ∧
      d.boundary.x = (px : ℚ) / (img.width : ℚ) ∧
      d.boundary.y = (py : ℚ) / (img.height : ℚ) ∧
      1/20 ≤ d.boundary.width ∧ 1/20 ≤ d.boundary.height :=
  single_opaque_pixel_boundary img px py label score p i ct h

/-- Witness for C3: a 1×1 mask with its only pixel opaque. -/
theorem maskToBoundary_single_pixel_witness :
    ∃ d, maskToBoundary (some ⟨1, 1, [0, 0, 0, 255]⟩) "room" (1/2) 0 0 [] = some d ∧
      d.boundary.x = ((0 : ℕ) : ℚ) / ((1 : ℕ) : ℚ) ∧
      d.boundary.y = ((0 : ℕ) : ℚ) / ((1 : ℕ) : ℚ) ∧
      1/20 ≤ d.boundary.width ∧ 1/20 ≤ d.boundary.height := by
  apply maskToBoundary_single_pixel ⟨1, 1, [0, 0, 0, 255]⟩ 0 0 "room" (1/2) 0 0 []
  intro x y
  constructor
  · rintro ⟨hx, hy, _⟩
    dsimp only at hx hy
    omega
  · rintro ⟨rfl, rfl⟩
    exact ⟨by decide, by decide, by decide⟩

/-- C6: the mask extractor fails closed.  A decode failure yields `none`
(first conjunct), a decoded mask with no opaque pixel yields `none` (second
conjunct), and a segment whose extraction yields `none` is skipped without
aborting the processing of the remaining segments (third conjunct). -/
theorem maskToBoundary_fails_closed (label : String) (score : ℚ) (p i j : ℕ)
    (ct : List RoomTypeDefinition) (img : MaskImage) (s : Segment)
    (rest : List Segment)
    (h1 : ∀ x y, ¬ OpaqueAt img x y)
    (h2 : maskToBoundary s.mask s.label s.score p j ct = none) :
    maskToBoundary none label score p i ct = none ∧
    maskToBoundary (some img) label score p i ct = none ∧
    processSegments p ct j (s :: rest) = processSegments p ct (j + 1) rest := by
  refine ⟨rfl, ?_, ?_⟩
  · unfold maskToBoundary
    dsimp only
    rw [scanMask_of_transparent img h1]
    rw [if_pos]
    exact Or.inl rfl
  · rw [processSegments, h2]

/-- Witness for C6: a fully transparent 1×1 mask and a segment whose mask
buffer failed to decode. -/
theorem maskToBoundary_fails_closed_witness :
    maskToBoundary none "Hall" (1/2) 0 0 [] = none ∧
    maskToBoundary (some ⟨1, 1, [0, 0, 0, 0]⟩) "Hall" (1/2) 0 0 [] = none ∧
    processSegments 0 [] 0 [⟨none, "bad mask", 1/2⟩] = processSegments 0 [] 1 [] := by
  apply maskToBoundary_fails_closed "Hall" (1/2) 0 0 0 [] ⟨1, 1, [0, 0, 0, 0]⟩
      ⟨none, "bad mask", 1/2⟩ []
  · rintro x y ⟨hx, hy, ha⟩
    dsimp only at hx hy ha
    unfold alphaAt at ha
    dsimp only at ha
    interval_cases x
    interval_cases y
    simp_all
  · rfl

/-- C9: the 0.05 floor is applied to normalized width/height but not to the
x/y placement, and `x + width` is not re-clamped to 1: for the decodable
21×1 mask whose only opaque pixel lies in the last column, the returned
boundary has `x + width = 20/21 + 1/20 > 1`. -/
theorem maskToBoundary_overflow :
    ∃ d, maskToBoundary
        (some ⟨21, 1, [ 0, 0, 0, 0, 0, 0, 0, 0, 0, 0, 0, 0, 0, 0, 0, 0, 0, 0, 0, 0
                      , 0, 0, 0, 0, 0, 0, 0, 0, 0, 0, 0, 0, 0, 0, 0, 0, 0, 0, 0, 0
                      , 0, 0, 0, 0, 0, 0, 0, 0, 0, 0, 0, 0, 0, 0, 0, 0, 0, 0, 0, 0
                      , 0, 0, 0, 0, 0, 0, 0, 0, 0, 0, 0, 0, 0, 0, 0, 0, 0, 0, 0, 0
                      , 0, 0, 0, 255 ]⟩)
        "Region 1" (1/2) 0 0 [] = some d ∧
      1 < d.boundary.x + d.boundary.width := by
  obtain ⟨d, hd, hx, hy, hw, hh⟩ :=
    single_opaque_pixel_boundary
      ⟨21, 1, [ 0, 0, 0, 0, 0, 0, 0, 0, 0, 0, 0, 0, 0, 0, 0, 0, 0, 0, 0, 0
              , 0, 0, 0, 0, 0, 0, 0, 0, 0, 0, 0, 0, 0, 0, 0, 0, 0, 0, 0, 0
              , 0, 0, 0, 0, 0, 0, 0, 0, 0, 0, 0, 0, 0, 0, 0, 0, 0, 0, 0, 0
              , 0, 0, 0, 0, 0, 0, 0, 0, 0, 0, 0, 0, 0, 0, 0, 0, 0, 0, 0, 0
              , 0, 0, 0, 255 ]⟩
      20 0 "Region 1" (1/2) 0 0 []
      (by
        intro x y
        constructor
        · rintro ⟨hx, hy, ha⟩
          dsimp only at hx hy ha
          unfold alphaAt at ha
          dsimp only at ha
          constructor
          · by_contra hne
            interval_cases x <;> interval_cases y <;> simp_all
          · omega
        · rintro ⟨rfl, rfl⟩
          exact ⟨by decide, by decide, by decide⟩)
  refine ⟨d, hd, ?_⟩
  dsimp only at hx
  norm_num at hx
  rw [hx]
  linarith

/-! ### Label mapping and confidence -/

theorem toFixed2_mono {a b : ℚ} (h : a ≤ b) : toFixed2 a ≤ toFixed2 b := by
  unfold toFixed2
  have hf : ⌊a * 100 + 1/2⌋ ≤ ⌊b * 100 + 1/2⌋ := Int.floor_le_floor (by linarith)
  have hc : ((⌊a * 100 + 1/2⌋ : ℤ) : ℚ) ≤ ((⌊b * 100 + 1/2⌋ : ℤ) : ℚ) := by exact_mod_cast hf
  linarith

/-- C7: label-to-room-type mapping.  The keyword matching is
case-insensitive (the rule outcome only depends on the lower-cased label,
first conjunct), `labelToRoomType` is the rule match with a title-case
fallback (second conjunct), and on concrete labels each keyword rule maps
as the fixed ordered list prescribes; in particular "Kitchen Area" and
"kitchen" both map to "Kitchen" and the unmatched "Server Room" is
returned title-cased, i.e. unchanged. -/
theorem labelToRoomType_spec (l₁ l₂ : String) (h : lowerStr l₁ = lowerStr l₂) :
    roomTypeRuleMatch (lowerStr l₁) = roomTypeRuleMatch (lowerStr l₂) ∧
    (∀ l, labelToRoomType l =
      match roomTypeRuleMatch (lowerStr l) with
      | some t => t
      | none => titleCase l) ∧
    labelToRoomType "Kitchen Area" = "Kitchen" ∧
    labelToRoomType "kitchen" = "Kitchen" ∧
    labelToRoomType "KITCHEN" = "Kitchen" ∧
    labelToRoomType "Server Room" = "Server Room" ∧
    labelToRoomType "living room" = "Living Room" ∧
    labelToRoomType "BEDROOM 2" = "Bedroom" ∧
    labelToRoomType "master bath" = "Bathroom" ∧
    labelToRoomType "restroom" = "Bathroom" ∧
    labelToRoomType "storage" = "Storage" ∧
    labelToRoomType "closet" = "Storage" ∧
    labelToRoomType "mechanical" = "Mechanical" ∧
    labelToRoomType "utility room" = "Mechanical" ∧
    labelToRoomType "office" = "Workspace" ∧
    labelToRoomType "workspace" = "Workspace" ∧
    labelToRoomType "corridor" = "Circulation" ∧
    labelToRoomType "hallway" = "Circulation" := by
  refine ⟨by rw [h], fun l => rfl, ?_, ?_, ?_, ?_, ?_, ?_, ?_, ?_, ?_, ?_, ?_, ?_, ?_, ?_,
    ?_, ?_⟩ <;> decide

/-- Witness for C7 at the concrete pair "KITCHEN" / "kitchen". -/
theorem labelToRoomType_spec_witness :
    roomTypeRuleMatch (lowerStr "KITCHEN") = roomTypeRuleMatch (lowerStr "kitchen") :=
  (labelToRoomType_spec "KITCHEN" "kitchen" (by decide)).1

/-- C8: the confidence of a detection produced by the mask extractor is the
input score clamped to `[0.10, 0.99]` and rounded to 2 decimal places (so
`100 * confidence` is an integer and the confidence stays in the clamp
range); an input score of 1.5 yields 0.99 and an input score of 0 yields
0.10. -/
theorem maskToBoundary_confidence (decoded : Option MaskImage) (label : String)
    (score : ℚ) (p i : ℕ) (ct : List RoomTypeDefinition) (d : RoomDetection)
    (h : maskToBoundary decoded label score p i ct = some d) :
    d.confidence = toFixed2 (min (max score (1/10)) (99/100)) ∧
    1/10 ≤ d.confidence ∧ d.confidence ≤ 99/100 ∧
    (100 * d.confidence).den = 1 ∧
    toFixed2 (min (max (3/2 : ℚ) (1/10)) (99/100)) = 99/100 ∧
    toFixed2 (min (max (0 : ℚ) (1/10)) (99/100)) = 1/10 := by
  have hconf : d.confidence = toFixed2 (min (max score (1/10)) (99/100)) := by
    rcases decoded with _ | img
    · exact absurd h (by simp [maskToBoundary])
    · unfold maskToBoundary at h
      dsimp only at h
      split at h
      · exact absurd h (by simp)
      · rw [Option.some.injEq] at h
        subst h
        rfl
  have hcl1 : 1/10 ≤ min (max score (1/10)) (99/100) :=
    le_min (le_max_right _ _) (by norm_num)
  have hcl2 : min (max score (1/10)) (99/100) ≤ 99/100 := min_le_right _ _
  have e1 : toFixed2 (1/10) = 1/10 := by norm_num [toFixed2]
  have e2 : toFixed2 (99/100) = 99/100 := by norm_num [toFixed2]
  refine ⟨hconf, ?_, ?_, ?_, ?_, ?_⟩
  · rw [hconf]
    exact le_trans e1.ge (toFixed2_mono hcl1)
  · rw [hconf]
    exact le_trans (toFixed2_mono hcl2) e2.le
  · rw [hconf]
    unfold toFixed2
    rw [mul_comm, div_mul_cancel₀ _ (by norm_num : (100:ℚ) ≠ 0)]
    exact Rat.den_intCast _
  · rw [max_eq_left (by norm_num), min_eq_right (by norm_num), e2]
  · rw [max_eq_right (by norm_num), min_eq_left (by norm_num), e1]

/-- Witness for C8: a decoded 1×1 opaque mask with score 1.5 produces a
detection, whose confidence obeys the clamp-and-round contract. -/
theorem maskToBoundary_confidence_witness :
    ∃ d, maskToBoundary (some ⟨1, 1, [0, 0, 0, 255]⟩) "x" (3/2) 0 0 [] = some d ∧
      (d.confidence = toFixed2 (min (max (3/2 : ℚ) (1/10)) (99/100)) ∧
       1/10 ≤ d.confidence ∧ d.confidence ≤ 99/100 ∧
       (100 * d.confidence).den = 1 ∧
       toFixed2 (min (max (3/2 : ℚ) (1/10)) (99/100)) = 99/100 ∧
       toFixed2 (min (max (0 : ℚ) (1/10)) (99/100)) = 1/10) := by
  have hl : IsLeast (opaqueXs ⟨1, 1, [0, 0, 0, 255]⟩) 0 :=
    ⟨⟨0, by unfold OpaqueAt; decide⟩, fun x _ => Nat.zero_le x⟩
  have hg : IsGreatest (opaqueXs ⟨1, 1, [0, 0, 0, 255]⟩) 0 := by
    refine ⟨⟨0, by unfold OpaqueAt; decide⟩, ?_⟩
    rintro x ⟨y, hx, _, _⟩
    dsimp only at hx
    omega
  have hly : IsLeast (opaqueYs ⟨1, 1, [0, 0, 0, 255]⟩) 0 :=
    ⟨⟨0, by unfold OpaqueAt; decide⟩, fun y _ => Nat.zero_le y⟩
  have hgy : IsGreatest (opaqueYs ⟨1, 1, [0, 0, 0, 255]⟩) 0 := by
    refine ⟨⟨0, by unfold OpaqueAt; decide⟩, ?_⟩
    rintro y ⟨x, _, hy, _⟩
    dsimp only at hy
    omega
  have h := maskToBoundary_of_bounds ⟨1, 1, [0, 0, 0, 255]⟩ "x" (3/2) 0 0 [] 0 0 0 0
    hl hg hly hgy
  exact ⟨_, h, maskToBoundary_confidence _ _ _ _ _ _ _ h⟩

/-! ### Room color lookup -/

/-- Counterexample to C10 as stated: with a custom type whose declared
color is the neutral gray itself, the gray is returned even though the key
does match a custom label, so "gray exactly when the key matches neither a
base label nor a custom label" fails. -/
theorem getRoomColor_gray_not_iff :
    getRoomColor "Foo" [⟨"Foo", "#94A3B8"⟩] = "#94A3B8" ∧
    ¬ ((getRoomColor "Foo" [⟨"Foo", "#94A3B8"⟩] = "#94A3B8") ↔
        ("Foo" ∉ baseRoomTypes.map RoomTypeDefinition.label ∧
         "Foo" ∉ ([⟨"Foo", "#94A3B8"⟩] : List RoomTypeDefinition).map
            RoomTypeDefinition.label)) := by
  decide

/-- C10 (amended): `getRoomColor` gives the base palette precedence over
custom types — a key equal to a base label returns that base type's color
for every `customTypes` list, even one redefining the label; a key matching
no base label returns the color of the first matching custom entry; and the
neutral gray `#94A3B8` is returned whenever the key matches neither a base
label nor a custom label (the converse only fails when a matching custom
entry's declared color is itself the gray string). -/
theorem getRoomColor_spec (type : String) (ct : List RoomTypeDefinition) :
    (type ∈ baseRoomTypes.map RoomTypeDefinition.label →
      ∃ b, b ∈ baseRoomTypes ∧ b.label = type ∧ getRoomColor type ct = b.color) ∧
    (type ∉ baseRoomTypes.map RoomTypeDefinition.label →
      ∀ b, ct.find? (fun d => d.label == type) = some b →
        getRoomColor type ct = b.color) ∧
    (type ∉ baseRoomTypes.map RoomTypeDefinition.label →
      type ∉ ct.map RoomTypeDefinition.label →
      getRoomColor type ct = "#94A3B8") := by
  refine ⟨?_, ?_, ?_⟩
  · intro hmem
    rw [List.mem_map] at hmem
    obtain ⟨a, ha, hlab⟩ := hmem
    have hsome : (baseRoomTypes.find? fun d => d.label == type).isSome :=
      List.find?_isSome.mpr ⟨a, ha, by rw [beq_iff_eq]; exact hlab⟩
    obtain ⟨b, hb⟩ := Option.isSome_iff_exists.mp hsome
    refine ⟨b, List.mem_of_find?_eq_some hb, by
        have := List.find?_some hb
        rwa [beq_iff_eq] at this, ?_⟩
    unfold getRoomColor
    rw [hb]
    rfl
  · intro hmem b hb
    have hnone : baseRoomTypes.find? (fun d => d.label == type) = none := by
      rw [List.find?_eq_none]
      intro a ha
      rw [beq_iff_eq]
      exact fun he => hmem (List.mem_map.mpr ⟨a, ha, he⟩)
    unfold getRoomColor
    rw [hnone, Option.orElse, hb]
  · intro hmem hmem'
    have hnone : baseRoomTypes.find? (fun d => d.label == type) = none := by
      rw [List.find?_eq_none]
      intro a ha
      rw [beq_iff_eq]
      exact fun he => hmem (List.mem_map.mpr ⟨a, ha, he⟩)
    have hnone' : ct.find? (fun d => d.label == type) = none := by
      rw [List.find?_eq_none]
      intro a ha
      rw [beq_iff_eq]
      exact fun he => hmem' (List.mem_map.mpr ⟨a, ha, he⟩)
    unfold getRoomColor
    rw [hnone, Option.orElse, hnone']

/-- Witness for C10 (amended): "Kitchen" keeps the base color even when a
custom type redefines it; a fresh custom label gets its declared color; an
unknown key falls back to the gray. -/
theorem getRoomColor_spec_witness :
    getRoomColor "Kitchen" [⟨"Kitchen", "#000000"⟩] = "#0EA5E9" ∧
    getRoomColor "Foo2" [⟨"Foo2", "#123456"⟩] = "#123456" ∧
    getRoomColor "Nope" [] = "#94A3B8" := by
  refine ⟨?_, ?_, ?_⟩
  · obtain ⟨b, hb, hlab, hcol⟩ :=
      (getRoomColor_spec "Kitchen" [⟨"Kitchen", "#000000"⟩]).1 (by decide)
    fin_cases hb <;> simp_all
  · exact (getRoomColor_spec "Foo2" [⟨"Foo2", "#123456"⟩]).2.1 (by decide)
      ⟨"Foo2", "#123456"⟩ (by decide)
  · exact (getRoomColor_spec "Nope" []).2.2 (by decide) (by decide)
